import Mathlib

/-!
Shallow embedding of `libqtile/layout/verticaltile.py` (class `VerticalTile`).

Modelling conventions:
- A client (window) is an opaque identity-comparable handle; we model it as a
  natural-number id.  Python `is` / `==` on windows is equality of ids.
- Python floats (`ratio`, `steps`, the `0.1` margin bias) are modelled as exact
  rationals `ℚ`.
- Python ints are `ℤ` (screen coordinates may be negative); widths/heights of
  the screen rectangle and `border_width` are `ℕ` as they are non-negative.
- Python `//` is floor division, modelled by `Int.fdiv`; Python `int(x)` on a
  float truncates toward zero, modelled by `pyTrunc`; Python `round` on the
  margin expressions is modelled by Mathlib `round` (the expressions
  `(m ± 1/10)/2` never land exactly on a half-integer, so the tie-breaking
  mode is irrelevant).
- The external `ClientList` collaborator (from `libqtile.layout.base`, not in
  the sources) is modelled from the spec as an ordered list of clients with a
  cursor: membership, 0-based first-index, removal of a client.
- `configure` performs no state mutation in the source (it only reads state and
  calls `window.place`/`window.unhide()` or `window.hide()`); it is embedded as
  a pure function returning `Option Placement`, where `none` means the window
  is hidden.
-/

namespace VerticalTileSpec

/-- Clients are opaque identity-comparable handles; modelled as ids. -/
abbrev Client := ℕ

/-- Screen rectangle `{x, y, width, height}` handed to `configure`. -/
structure ScreenRect where
  x : ℤ
  y : ℤ
  width : ℕ
  height : ℕ
deriving DecidableEq

/-- Margin configuration: a scalar int or a 4-tuple `[N, E, S, W]`,
as accepted by the `margin` option. -/
inductive Margin where
  | scalar (m : ℤ)
  | quad (a b c d : ℤ)
deriving DecidableEq

/-- `margin_size = [margin_size] * 4` when the configured margin is not a
list; a 4-element list is used as-is. -/
def expandMargin : Margin → ℤ × ℤ × ℤ × ℤ
  | .scalar m => (m, m, m, m)
  | .quad a b c d => (a, b, c, d)

/-- State of a `VerticalTile` layout: the ordered client list with its cursor
(`current`, modelled from the spec since the list class is external), the
`maximized` reference, the master `ratio` and `steps` increment, and the
configured border and margin options. -/
structure State where
  clients : List Client
  current : Option Client := none
  maximized : Option Client := none
  ratio : ℚ := 3 / 4
  steps : ℚ := 1 / 20
  border_width : ℕ := 1
  border_focus : String := "#FF0000"
  border_normal : String := "#FFFFFF"
  margin : Margin := .scalar 0
deriving DecidableEq

/-- Python `int()` applied to a rational: truncation toward zero. -/
def pyTrunc (q : ℚ) : ℤ := if 0 ≤ q then ⌊q⌋ else ⌈q⌉

/-- `main_area_height = int(screen_rect.height * self.ratio)`. -/
def mainAreaHeight (r : ScreenRect) (ratio : ℚ) : ℤ :=
  pyTrunc ((r.height : ℚ) * ratio)

/-- `sec_area_height = screen_rect.height - main_area_height`. -/
def secAreaHeight (r : ScreenRect) (ratio : ℚ) : ℤ :=
  (r.height : ℤ) - mainAreaHeight r ratio

/-- `main_pane_height = main_area_height - border_width * 2`. -/
def mainPaneHeight (r : ScreenRect) (ratio : ℚ) (bw : ℕ) : ℤ :=
  mainAreaHeight r ratio - (bw : ℤ) * 2

/-- `sec_pane_height = sec_area_height // (n - 1) - border_width * 2`. -/
def secPaneHeight (r : ScreenRect) (ratio : ℚ) (bw n : ℕ) : ℤ :=
  Int.fdiv (secAreaHeight r ratio) ((n : ℤ) - 1) - (bw : ℤ) * 2

/-- `normal_pane_height = (screen_rect.height // n) - (border_width * 2)`. -/
def normalPaneHeight (r : ScreenRect) (bw n : ℕ) : ℤ :=
  Int.fdiv (r.height : ℤ) (n : ℤ) - (bw : ℤ) * 2

/-- Height selection of `configure`: full screen height when `n == 1`; with
more clients, the maximized client gets the main pane height, other clients
the secondary pane height, and without a maximized client every client gets
the normal pane height. -/
def heightOf (st : State) (r : ScreenRect) (window : Client) (n bw : ℕ) : ℤ :=
  if 1 < n then
    match st.maximized with
    | some m =>
        if window = m then mainPaneHeight r st.ratio bw
        else secPaneHeight r st.ratio bw n
    | none => normalPaneHeight r bw n
  else (r.height : ℤ)

/-- Vertical position of `configure`: starting from `screen_rect.y`, offset by
`index` pane heights plus `border_width * 2 * index`; when a maximized client
exists and `window` is a later, non-maximized client, the offset is corrected
by replacing one secondary pane height with the main pane height. -/
def yOf (st : State) (r : ScreenRect) (window : Client) (n index bw : ℕ) : ℤ :=
  if 1 < n then
    match st.maximized with
    | some m =>
        let base := r.y + (index : ℤ) * secPaneHeight r st.ratio bw n
          + (bw : ℤ) * 2 * (index : ℤ)
        if window ≠ m ∧ st.clients.indexOf m < index then
          base - secPaneHeight r st.ratio bw n + mainPaneHeight r st.ratio bw
        else base
    | none =>
        r.y + (index : ℤ) * normalPaneHeight r bw n + (bw : ℤ) * 2 * (index : ℤ)
  else r.y

/-- Margin list passed to `window.place`: the top entry is halved (with a
`+0.1` bias before rounding) unless `window` is the first client or the list
has a single client, the bottom entry is halved (with a `-0.1` bias) unless
`window` is the last client or the list has a single client; the east and
west entries pass through unchanged. -/
def marginOf (st : State) (window : Client) : List ℤ :=
  let ms := expandMargin st.margin
  [ if window ≠ st.clients.headI ∧ st.clients.headI ≠ st.clients.getLastI then
      round (((ms.1 : ℚ) + 1 / 10) / 2)
    else ms.1,
    ms.2.1,
    if window ≠ st.clients.getLastI ∧ st.clients.headI ≠ st.clients.getLastI then
      round (((ms.2.2.1 : ℚ) - 1 / 10) / 2)
    else ms.2.2.1,
    ms.2.2.2 ]

/-- Geometry result of `configure` for a visible window, as passed to
`window.place(screen_rect.x, y, width, height, border_width, border_color,
margin=margin_size)`. -/
structure Placement where
  x : ℤ
  y : ℤ
  width : ℤ
  height : ℤ
  borderWidth : ℕ
  borderColor : String
  margin : List ℤ
deriving DecidableEq

/-- Body of `configure` for a member window: `n = len(self.clients)`,
`index = self.clients.index(window)`, the effective border width (0 when
`n == 1`), the focus-dependent border color, the width
(`screen_rect.width - self.border_width * 2` when `n > 1`), and the height,
vertical position and margins computed by the helpers above. -/
def mkPlacement (st : State) (hasFocus : Client → Bool) (window : Client)
    (r : ScreenRect) : Placement :=
  let n := st.clients.length
  let index := st.clients.indexOf window
  let bw := if 1 < n then st.border_width else 0
  { x := r.x,
    y := yOf st r window n index bw,
    width :=
      if 1 < n then (r.width : ℤ) - (st.border_width : ℤ) * 2 else (r.width : ℤ),
    height := heightOf st r window n bw,
    borderWidth := bw,
    borderColor := if hasFocus window then st.border_focus else st.border_normal,
    margin := marginOf st window }

/-- `VerticalTile.configure(window, screen_rect)`: `none` models hiding the
window (empty list or `window` not a member); otherwise the placement handed
to `window.place`.  `hasFocus` is the host-owned focus flag of each window. -/
def configure (st : State) (hasFocus : Client → Bool) (window : Client)
    (r : ScreenRect) : Option Placement :=
  if st.clients ≠ [] ∧ window ∈ st.clients then
    some (mkPlacement st hasFocus window r)
  else none

/-- `VerticalTile.grow`: increase `ratio` by `steps` only when the result
stays below 1; otherwise the state is unchanged. -/
def grow (st : State) : State :=
  if st.ratio + st.steps < 1 then { st with ratio := st.ratio + st.steps }
  else st

/-- `VerticalTile.shrink`: decrease `ratio` by `steps` only when the result
stays above 0; otherwise the state is unchanged. -/
def shrink (st : State) : State :=
  if 0 < st.ratio - st.steps then { st with ratio := st.ratio - st.steps }
  else st

/-- `VerticalTile.remove(window)`: clear `maximized` first when it is the
removed window, then delegate to `ClientList.remove`.  The list removal is
modelled from the spec (the list class is external): the client is removed
from the ordered sequence, embedded as `List.erase`. -/
def remove (st : State) (window : Client) : State :=
  let st' :=
    if st.maximized = some window then { st with maximized := none } else st
  { st' with clients := st'.clients.erase window }

/-- `VerticalTile.clone(group)`: the base class produces a copy (modelled here
as an arbitrary state, since `_SimpleLayoutBase.clone` is external), and the
method then sets `maximized = None` on it before returning. -/
def clone (baseResult : State) : State :=
  { baseResult with maximized := none }

/-- `VerticalTile.cmd_grow`: no-op without a maximized client; `grow` when the
current client is the maximized one, `shrink` otherwise. -/
def cmd_grow (st : State) : State :=
  match st.maximized with
  | none => st
  | some m => if st.current = some m then grow st else shrink st

/-- `VerticalTile.cmd_shrink`: no-op without a maximized client; `shrink` when
the current client is the maximized one, `grow` otherwise. -/
def cmd_shrink (st : State) : State :=
  match st.maximized with
  | none => st
  | some m => if st.current = some m then shrink st else grow st

/-- One `grow`/`shrink` call, for reasoning about call sequences. -/
inductive RatioOp where
  | grow
  | shrink
deriving DecidableEq

/-- Apply one ratio operation. -/
def applyOp (st : State) : RatioOp → State
  | .grow => grow st
  | .shrink => shrink st

/-- Apply a finite sequence of `grow`/`shrink` calls, left to right. -/
def applyOps (st : State) : List RatioOp → State
  | [] => st
  | op :: rest => applyOps (applyOp st op) rest

/-- Example screen rectangle: 800x800 at the origin. -/
def exRect : ScreenRect := ⟨0, 0, 800, 800⟩

/-- Example state with four clients and no maximized client. -/
def exNormalState : State := { clients := [10, 11, 12, 13] }

/-- Example state with three clients, the first one maximized. -/
def exMaxState : State := { clients := [10, 11, 12], maximized := some 10 }

/-- Example state with two clients and a scalar margin of 5. -/
def exMarginState : State := { clients := [10, 11], margin := .scalar 5 }

/-- Example single-client state with a 4-tuple margin. -/
def exSingleState : State := { clients := [10], margin := .quad 5 6 7 8 }

/-- Example state with default ratio 3/4 and step 1/20. -/
def exState : State := { clients := [] }

/-- Example state where the cursor rests on the maximized client. -/
def exCursorOnMax : State :=
  { clients := [10, 11, 12], current := some 10, maximized := some 10 }

/-- Example state where the cursor rests on a secondary pane. -/
def exCursorOnSec : State :=
  { clients := [10, 11, 12], current := some 11, maximized := some 10 }

/-- Focus predicate marking no window as focused. -/
def noFocus : Client → Bool := fun _ => false

/-- Unfolding of `configure` on a member window of a non-empty list. -/
lemma configure_of_mem (st : State) (f : Client → Bool) (w : Client)
    (r : ScreenRect) (h1 : st.clients ≠ []) (h2 : w ∈ st.clients) :
    configure st f w r = some (mkPlacement st f w r) := by
  simp [configure, h1, h2]

/-- Height field of the placement record. -/
lemma mkPlacement_height (st : State) (f : Client → Bool) (w : Client)
    (r : ScreenRect) :
    (mkPlacement st f w r).height = heightOf st r w st.clients.length
      (if 1 < st.clients.length then st.border_width else 0) := rfl

/-- Vertical-position field of the placement record. -/
lemma mkPlacement_y (st : State) (f : Client → Bool) (w : Client)
    (r : ScreenRect) :
    (mkPlacement st f w r).y = yOf st r w st.clients.length
      (st.clients.indexOf w)
      (if 1 < st.clients.length then st.border_width else 0) := rfl

/-- Width field of the placement record. -/
lemma mkPlacement_width (st : State) (f : Client → Bool) (w : Client)
    (r : ScreenRect) :
    (mkPlacement st f w r).width =
      if 1 < st.clients.length then (r.width : ℤ) - (st.border_width : ℤ) * 2
      else (r.width : ℤ) := rfl

/-- Border-width field of the placement record. -/
lemma mkPlacement_borderWidth (st : State) (f : Client → Bool) (w : Client)
    (r : ScreenRect) :
    (mkPlacement st f w r).borderWidth =
      if 1 < st.clients.length then st.border_width else 0 := rfl

/-- Margin field of the placement record. -/
lemma mkPlacement_margin (st : State) (f : Client → Bool) (w : Client)
    (r : ScreenRect) : (mkPlacement st f w r).margin = marginOf st w := rfl

/-- C9: configure hides a window that is not a member of the client list
(including when the list is empty): the result is `none`, and since
`configure` is a pure function of the state, the ratio, the maximized
reference and the client ordering are untouched. -/
theorem configure_nonmember_hides (st : State) (f : Client → Bool) (w : Client)
    (r : ScreenRect) (hw : w ∉ st.clients) : configure st f w r = none := by
  simp only [configure]
  exact if_neg (fun h => hw h.2)

/-- Witness for C9: a stale client id and an empty list are both hidden. -/
theorem configure_nonmember_hides_witness :
    configure { clients := [] } noFocus 5 exRect = none ∧
    configure exNormalState noFocus 99 exRect = none :=
  ⟨configure_nonmember_hides _ noFocus 5 exRect (by decide),
   configure_nonmember_hides _ noFocus 99 exRect (by decide)⟩

/-- C10: a clone always starts with the maximized reference unset, whatever
state the base-class copy is in. -/
theorem clone_unsets_maximized (b : State) : (clone b).maximized = none := rfl

/-- C2: with `n > 1` clients and no maximized client, every client gets
height `floor(h / n) - 2*borderWidth`, the client at index `i` gets vertical
offset `screenRect.y + i*(floor(h / n) - 2*borderWidth) + 2*borderWidth*i`,
and the width is `screenRect.width - 2*borderWidth`. -/
theorem configure_normal_stack (st : State) (f : Client → Bool) (w : Client)
    (r : ScreenRect) (hmax : st.maximized = none) (hn : 1 < st.clients.length)
    (hw : w ∈ st.clients) :
    ∃ p, configure st f w r = some p ∧
      p.height = Int.fdiv (r.height : ℤ) (st.clients.length : ℤ)
        - 2 * (st.border_width : ℤ) ∧
      p.y = r.y + (st.clients.indexOf w : ℤ) *
            (Int.fdiv (r.height : ℤ) (st.clients.length : ℤ)
              - 2 * (st.border_width : ℤ))
          + 2 * (st.border_width : ℤ) * (st.clients.indexOf w : ℤ) ∧
      p.width = (r.width : ℤ) - 2 * (st.border_width : ℤ) := by
  have hne : st.clients ≠ [] := List.ne_nil_of_length_pos (by omega)
  refine ⟨mkPlacement st f w r, configure_of_mem st f w r hne hw, ?_, ?_, ?_⟩
  · rw [mkPlacement_height, if_pos hn]
    simp only [heightOf, if_pos hn, hmax, normalPaneHeight]
    ring
  · rw [mkPlacement_y, if_pos hn]
    simp only [yOf, if_pos hn, hmax, normalPaneHeight]
    ring
  · rw [mkPlacement_width, if_pos hn]
    ring

/-- Witness for C2: four clients on an 800x800 screen with border width 1
give heights 198, y-offsets 0, 200, 400, 600 and width 798. -/
theorem configure_normal_stack_witness :
    (∃ p, configure exNormalState noFocus 10 exRect = some p ∧
      p.height = 198 ∧ p.y = 0 ∧ p.width = 798) ∧
    (∃ p, configure exNormalState noFocus 11 exRect = some p ∧
      p.height = 198 ∧ p.y = 200 ∧ p.width = 798) ∧
    (∃ p, configure exNormalState noFocus 12 exRect = some p ∧
      p.height = 198 ∧ p.y = 400 ∧ p.width = 798) ∧
    (∃ p, configure exNormalState noFocus 13 exRect = some p ∧
      p.height = 198 ∧ p.y = 600 ∧ p.width = 798) := by
  refine ⟨?_, ?_, ?_, ?_⟩ <;>
    [obtain ⟨p, hp, h1, h2, h3⟩ :=
      configure_normal_stack exNormalState noFocus 10 exRect rfl (by decide)
        (by decide);
     obtain ⟨p, hp, h1, h2, h3⟩ :=
      configure_normal_stack exNormalState noFocus 11 exRect rfl (by decide)
        (by decide);
     obtain ⟨p, hp, h1, h2, h3⟩ :=
      configure_normal_stack exNormalState noFocus 12 exRect rfl (by decide)
        (by decide);
     obtain ⟨p, hp, h1, h2, h3⟩ :=
      configure_normal_stack exNormalState noFocus 13 exRect rfl (by decide)
        (by decide)] <;>
    exact ⟨p, hp, by rw [h1]; decide, by rw [h2]; decide, by rw [h3]; decide⟩

/-- C8: with exactly one client, configure gives border width 0, the full
screen width and height, and the configured margins unchanged. -/
theorem configure_single_client (st : State) (f : Client → Bool) (w : Client)
    (r : ScreenRect) (m0 m1 m2 m3 : ℤ) (hcl : st.clients = [w])
    (hm : expandMargin st.margin = (m0, m1, m2, m3)) :
    ∃ p, configure st f w r = some p ∧
      p.borderWidth = 0 ∧ p.width = (r.width : ℤ) ∧
      p.height = (r.height : ℤ) ∧ p.margin = [m0, m1, m2, m3] := by
  have hne : st.clients ≠ [] := by rw [hcl]; simp
  have hw : w ∈ st.clients := by rw [hcl]; simp
  refine ⟨mkPlacement st f w r, configure_of_mem st f w r hne hw, ?_, ?_, ?_, ?_⟩
  · rw [mkPlacement_borderWidth, hcl]
    simp
  · rw [mkPlacement_width, hcl]
    simp
  · rw [mkPlacement_height, hcl]
    simp [heightOf]
  · rw [mkPlacement_margin]
    simp [marginOf, hm, hcl, List.getLastI]

/-- Witness for C8: a single client on an 800x800 screen with margins
`[5, 6, 7, 8]` keeps them and gets the full screen with no border. -/
theorem configure_single_client_witness :
    ∃ p, configure exSingleState noFocus 10 exRect = some p ∧
      p.borderWidth = 0 ∧ p.width = 800 ∧ p.height = 800 ∧
      p.margin = [5, 6, 7, 8] := by
  obtain ⟨p, hp, h1, h2, h3, h4⟩ :=
    configure_single_client exSingleState noFocus 10 exRect 5 6 7 8 rfl rfl
  exact ⟨p, hp, h1, by rw [h2]; decide, by rw [h3]; decide, h4⟩

/-- C1: with `n > 1` clients and a maximized client `m`, the maximized
client gets height `floor(h*ratio) - 2*borderWidth`, every other client gets
height `floor((h - floor(h*ratio)) / (n-1)) - 2*borderWidth`, the vertical
offset at index `i` starts as `screenRect.y + i*secondaryPaneHeight +
2*borderWidth*i`, and a non-maximized client strictly after the maximized
one is corrected by `+ masterPaneHeight - secondaryPaneHeight`. -/
theorem configure_maximized_stack (st : State) (f : Client → Bool)
    (w m : Client) (r : ScreenRect) (hmax : st.maximized = some m)
    (hm : m ∈ st.clients) (hn : 1 < st.clients.length) (hw : w ∈ st.clients)
    (hr : 0 ≤ st.ratio) :
    ∃ p, configure st f w r = some p ∧
      (w = m →
        p.height = ⌊(r.height : ℚ) * st.ratio⌋ - 2 * (st.border_width : ℤ)) ∧
      (w ≠ m →
        p.height = Int.fdiv ((r.height : ℤ) - ⌊(r.height : ℚ) * st.ratio⌋)
            ((st.clients.length : ℤ) - 1) - 2 * (st.border_width : ℤ)) ∧
      p.y = r.y
          + (st.clients.indexOf w : ℤ) *
              (Int.fdiv ((r.height : ℤ) - ⌊(r.height : ℚ) * st.ratio⌋)
                  ((st.clients.length : ℤ) - 1) - 2 * (st.border_width : ℤ))
          + 2 * (st.border_width : ℤ) * (st.clients.indexOf w : ℤ)
          + (if w ≠ m ∧ st.clients.indexOf m < st.clients.indexOf w then
              (⌊(r.height : ℚ) * st.ratio⌋ - 2 * (st.border_width : ℤ))
                - (Int.fdiv ((r.height : ℤ) - ⌊(r.height : ℚ) * st.ratio⌋)
                    ((st.clients.length : ℤ) - 1)
                  - 2 * (st.border_width : ℤ))
            else 0) := by
  have hne : st.clients ≠ [] := List.ne_nil_of_length_pos (by omega)
  have hfloor : mainAreaHeight r st.ratio = ⌊(r.height : ℚ) * st.ratio⌋ := by
    rw [mainAreaHeight, pyTrunc, if_pos (mul_nonneg (by positivity) hr)]
  refine ⟨mkPlacement st f w r, configure_of_mem st f w r hne hw, ?_, ?_, ?_⟩
  · intro hwm
    rw [mkPlacement_height, if_pos hn]
    simp only [heightOf, if_pos hn, hmax, hwm, if_true, if_false,
      eq_self_iff_true, mainPaneHeight, hfloor]
    ring
  · intro hwm
    rw [mkPlacement_height, if_pos hn]
    simp only [heightOf, if_pos hn, hmax, hwm, if_true, if_false,
      secPaneHeight, secAreaHeight, hfloor]
    ring
  · rw [mkPlacement_y, if_pos hn]
    simp only [yOf, if_pos hn, hmax]
    by_cases hc : w ≠ m ∧ st.clients.indexOf m < st.clients.indexOf w
    · rw [if_pos hc, if_pos hc]
      simp only [secPaneHeight, secAreaHeight, mainPaneHeight, hfloor]
      ring
    · rw [if_neg hc, if_neg hc]
      simp only [secPaneHeight, secAreaHeight, hfloor]
      ring

/-- Witness for C1: three clients on an 800x800 screen, border width 1,
ratio 3/4, client at index 0 maximized: heights 598, 98, 98 and y-offsets
0, 600, 700. -/
theorem configure_maximized_stack_witness :
    (∃ p, configure exMaxState noFocus 10 exRect = some p ∧
      p.height = 598 ∧ p.y = 0) ∧
    (∃ p, configure exMaxState noFocus 11 exRect = some p ∧
      p.height = 98 ∧ p.y = 600) ∧
    (∃ p, configure exMaxState noFocus 12 exRect = some p ∧
      p.height = 98 ∧ p.y = 700) := by
  have hr04 : 0 ≤ exMaxState.ratio := by norm_num [exMaxState]
  have hfl : ⌊(exRect.height : ℚ) * exMaxState.ratio⌋ = 600 := by
    norm_num [exRect, exMaxState]
  refine ⟨?_, ?_, ?_⟩
  · obtain ⟨p, hp, h1, -, h3⟩ :=
      configure_maximized_stack exMaxState noFocus 10 10 exRect rfl
        (by decide) (by decide) (by decide) hr04
    refine ⟨p, hp, ?_, ?_⟩
    · rw [h1 rfl, hfl]; decide
    · rw [h3, hfl]; decide
  · obtain ⟨p, hp, -, h2, h3⟩ :=
      configure_maximized_stack exMaxState noFocus 11 10 exRect rfl
        (by decide) (by decide) (by decide) hr04
    refine ⟨p, hp, ?_, ?_⟩
    · rw [h2 (by decide), hfl]; decide
    · rw [h3, hfl]; decide
  · obtain ⟨p, hp, -, h2, h3⟩ :=
      configure_maximized_stack exMaxState noFocus 12 10 exRect rfl
        (by decide) (by decide) (by decide) hr04
    refine ⟨p, hp, ?_, ?_⟩
    · rw [h2 (by decide), hfl]; decide
    · rw [h3, hfl]; decide

/-- With at least two distinct clients, the first and last list entries
differ. -/
lemma headI_ne_getLastI (l : List Client) (hnd : l.Nodup) (hl : 1 < l.length) :
    l.headI ≠ l.getLastI := by
  cases l with
  | nil => simp at hl
  | cons a t =>
    cases t with
    | nil => simp at hl
    | cons b u =>
      have hne : (b :: u) ≠ [] := by simp
      have h2 : (a :: b :: u).getLastI = (b :: u).getLast hne := by
        rw [List.getLastI_eq_getLast?,
          List.getLast?_eq_getLast _ (List.cons_ne_nil a (b :: u)),
          Option.iget_some, List.getLast_cons hne]
      have hmem : (b :: u).getLast hne ∈ b :: u := List.getLast_mem hne
      have hnotin : a ∉ b :: u := (List.nodup_cons.mp hnd).1
      rw [List.headI, h2]
      intro hEq
      exact hnotin (by rw [hEq]; exact hmem)

/-- C5: with `n > 1` clients (unique entries), the top margin stays
`margin[0]` only for the first client and becomes `round((margin[0]+0.1)/2)`
for every other client, the bottom margin stays `margin[2]` only for the last
client and becomes `round((margin[2]-0.1)/2)` otherwise, the east and west
margins pass through, and a scalar margin expands to four equal values. -/
theorem configure_margin_split (st : State) (f : Client → Bool) (w : Client)
    (r : ScreenRect) (m0 m1 m2 m3 : ℤ)
    (hmg : expandMargin st.margin = (m0, m1, m2, m3))
    (hn : 1 < st.clients.length) (hnd : st.clients.Nodup)
    (hw : w ∈ st.clients) :
    (∀ s : ℤ, expandMargin (Margin.scalar s) = (s, s, s, s)) ∧
    ∃ p, configure st f w r = some p ∧
      p.margin =
        [if w = st.clients.headI then m0
          else round (((m0 : ℚ) + 1 / 10) / 2),
         m1,
         if w = st.clients.getLastI then m2
          else round (((m2 : ℚ) - 1 / 10) / 2),
         m3] := by
  have hne : st.clients ≠ [] := List.ne_nil_of_length_pos (by omega)
  have hhl : st.clients.headI ≠ st.clients.getLastI :=
    headI_ne_getLastI st.clients hnd hn
  refine ⟨fun s => rfl, mkPlacement st f w r,
    configure_of_mem st f w r hne hw, ?_⟩
  rw [mkPlacement_margin]
  simp only [marginOf, hmg, ne_eq, hhl, not_false_iff, and_true, ite_not]

/-- Witness for C5: two clients with scalar margin 5; the second client gets
margins `[3, 5, 5, 5]` (top halved up, bottom kept), the first client gets
`[5, 5, 2, 5]` (top kept, bottom halved down). -/
theorem configure_margin_split_witness :
    (∃ p, configure exMarginState noFocus 11 exRect = some p ∧
      p.margin = [3, 5, 5, 5]) ∧
    (∃ p, configure exMarginState noFocus 10 exRect = some p ∧
      p.margin = [5, 5, 2, 5]) := by
  constructor
  · obtain ⟨-, p, hp, hm⟩ :=
      configure_margin_split exMarginState noFocus 11 exRect 5 5 5 5 rfl
        (by decide) (by decide) (by decide)
    refine ⟨p, hp, ?_⟩
    rw [hm]
    norm_num [exMarginState, List.getLastI, round_eq]
  · obtain ⟨-, p, hp, hm⟩ :=
      configure_margin_split exMarginState noFocus 10 exRect 5 5 5 5 rfl
        (by decide) (by decide) (by decide)
    refine ⟨p, hp, ?_⟩
    rw [hm]
    norm_num [exMarginState, List.getLastI, round_eq]

/-- Growing never changes the step size. -/
lemma grow_steps (st : State) : (grow st).steps = st.steps := by
  unfold grow; split <;> rfl

/-- Shrinking never changes the step size. -/
lemma shrink_steps (st : State) : (shrink st).steps = st.steps := by
  unfold shrink; split <;> rfl

/-- Ratio after an admitted grow. -/
lemma grow_ratio_of_lt (st : State) (h : st.ratio + st.steps < 1) :
    (grow st).ratio = st.ratio + st.steps := by
  unfold grow; rw [if_pos h]

/-- Ratio after an admitted shrink. -/
lemma shrink_ratio_of_pos (st : State) (h : 0 < st.ratio - st.steps) :
    (shrink st).ratio = st.ratio - st.steps := by
  unfold shrink; rw [if_pos h]

/-- A grow call keeps a positive-step ratio strictly inside `(0,1)`. -/
lemma grow_ratio_bounds (st : State) (h0 : 0 < st.ratio) (h1 : st.ratio < 1)
    (hs : 0 < st.steps) : 0 < (grow st).ratio ∧ (grow st).ratio < 1 := by
  unfold grow
  split
  next h =>
    refine ⟨?_, ?_⟩
    · show 0 < st.ratio + st.steps
      linarith
    · show st.ratio + st.steps < 1
      exact h
  next h => exact ⟨h0, h1⟩

/-- A shrink call keeps a positive-step ratio strictly inside `(0,1)`. -/
lemma shrink_ratio_bounds (st : State) (h0 : 0 < st.ratio) (h1 : st.ratio < 1)
    (hs : 0 < st.steps) : 0 < (shrink st).ratio ∧ (shrink st).ratio < 1 := by
  unfold shrink
  split
  next h =>
    refine ⟨?_, ?_⟩
    · show 0 < st.ratio - st.steps
      exact h
    · show st.ratio - st.steps < 1
      linarith
  next h => exact ⟨h0, h1⟩

/-- One grow/shrink call preserves the `(0,1)` bounds and the step size. -/
lemma applyOp_invariant (op : RatioOp) (st : State) (h0 : 0 < st.ratio)
    (h1 : st.ratio < 1) (hs : 0 < st.steps) :
    (0 < (applyOp st op).ratio ∧ (applyOp st op).ratio < 1) ∧
      (applyOp st op).steps = st.steps := by
  cases op
  · exact ⟨grow_ratio_bounds st h0 h1 hs, grow_steps st⟩
  · exact ⟨shrink_ratio_bounds st h0 h1 hs, shrink_steps st⟩

/-- Any sequence of grow/shrink calls keeps the ratio strictly inside
`(0,1)`. -/
lemma applyOps_ratio_bounds (ops : List RatioOp) : ∀ st : State,
    0 < st.ratio → st.ratio < 1 → 0 < st.steps →
    0 < (applyOps st ops).ratio ∧ (applyOps st ops).ratio < 1 := by
  induction ops with
  | nil => intro st h0 h1 _; exact ⟨h0, h1⟩
  | cons op rest ih =>
    intro st h0 h1 hs
    obtain ⟨⟨g0, g1⟩, gs⟩ := applyOp_invariant op st h0 h1 hs
    exact ih (applyOp st op) g0 g1 (by rw [gs]; exact hs)

/-- C3: for a starting ratio strictly inside `(0,1)` and a positive step,
a grow call updates the ratio to `ratio + step` exactly when
`ratio + step < 1` and otherwise leaves the whole state unchanged, a shrink
call updates it to `ratio - step` exactly when `ratio - step > 0` and
otherwise leaves the whole state unchanged, and after any finite sequence of
grow/shrink calls the ratio stays strictly inside `(0,1)`. -/
theorem ratio_stays_in_bounds (st : State) (ops : List RatioOp)
    (h0 : 0 < st.ratio) (h1 : st.ratio < 1) (hs : 0 < st.steps) :
    (st.ratio + st.steps < 1 →
      grow st = { st with ratio := st.ratio + st.steps }) ∧
    (¬ st.ratio + st.steps < 1 → grow st = st) ∧
    (0 < st.ratio - st.steps →
      shrink st = { st with ratio := st.ratio - st.steps }) ∧
    (¬ 0 < st.ratio - st.steps → shrink st = st) ∧
    0 < (applyOps st ops).ratio ∧ (applyOps st ops).ratio < 1 := by
  refine ⟨fun h => by unfold grow; rw [if_pos h],
    fun h => by unfold grow; rw [if_neg h],
    fun h => by unfold shrink; rw [if_pos h],
    fun h => by unfold shrink; rw [if_neg h],
    applyOps_ratio_bounds ops st h0 h1 hs⟩

/-- Witness for C3: starting at ratio 3/4 with step 1/20, the sequence
grow, grow, shrink ends strictly inside `(0,1)`. -/
theorem ratio_stays_in_bounds_witness :
    0 < (applyOps exState
        [RatioOp.grow, RatioOp.grow, RatioOp.shrink]).ratio ∧
      (applyOps exState [RatioOp.grow, RatioOp.grow, RatioOp.shrink]).ratio
        < 1 :=
  (ratio_stays_in_bounds exState [RatioOp.grow, RatioOp.grow, RatioOp.shrink]
    (by norm_num [exState]) (by norm_num [exState])
    (by norm_num [exState])).2.2.2.2

/-- C6: when both guards admit the mutation, grow followed by shrink (and
shrink followed by grow) restores the ratio to exactly its original value. -/
theorem grow_shrink_roundtrip (st : State) :
    (st.ratio + st.steps < 1 → 0 < (grow st).ratio - (grow st).steps →
      (shrink (grow st)).ratio = st.ratio) ∧
    (0 < st.ratio - st.steps → (shrink st).ratio + (shrink st).steps < 1 →
      (grow (shrink st)).ratio = st.ratio) := by
  constructor
  · intro h1 h2
    rw [shrink_ratio_of_pos (grow st) h2, grow_ratio_of_lt st h1,
      grow_steps st]
    ring
  · intro h1 h2
    rw [grow_ratio_of_lt (shrink st) h2, shrink_ratio_of_pos st h1,
      shrink_steps st]
    ring

/-- Witness for C6: from ratio 3/4 with step 1/20 both round trips return to
exactly 3/4. -/
theorem grow_shrink_roundtrip_witness :
    (shrink (grow exState)).ratio = 3 / 4 ∧
      (grow (shrink exState)).ratio = 3 / 4 := by
  have h := grow_shrink_roundtrip exState
  constructor
  · rw [h.1 (by norm_num [exState])
      (by rw [grow_ratio_of_lt exState (by norm_num [exState]),
        grow_steps exState]; norm_num [exState])]
    norm_num [exState]
  · rw [h.2 (by norm_num [exState])
      (by rw [shrink_ratio_of_pos exState (by norm_num [exState]),
        shrink_steps exState]; norm_num [exState])]
    norm_num [exState]

/-- C7: with a positive step, `cmd_grow`/`cmd_shrink` are no-ops when no
client is maximized; when the current client is the maximized one, `cmd_grow`
delegates to `grow` (increasing the ratio whenever the guard admits it) and
`cmd_shrink` to `shrink` (decreasing it); when the current client is a
secondary pane the sense is inverted. -/
theorem cmd_grow_shrink_direction (st : State) (m : Client)
    (hs : 0 < st.steps) :
    (st.maximized = none → cmd_grow st = st ∧ cmd_shrink st = st) ∧
    (st.maximized = some m → st.current = some m →
      cmd_grow st = grow st ∧ cmd_shrink st = shrink st ∧
      (st.ratio + st.steps < 1 → st.ratio < (cmd_grow st).ratio) ∧
      (0 < st.ratio - st.steps → (cmd_shrink st).ratio < st.ratio)) ∧
    (st.maximized = some m → st.current ≠ some m →
      cmd_grow st = shrink st ∧ cmd_shrink st = grow st ∧
      (0 < st.ratio - st.steps → (cmd_grow st).ratio < st.ratio) ∧
      (st.ratio + st.steps < 1 → st.ratio < (cmd_shrink st).ratio)) := by
  refine ⟨?_, ?_, ?_⟩
  · intro h
    constructor <;> simp [cmd_grow, cmd_shrink, h]
  · intro hmax hcur
    have hg : cmd_grow st = grow st := by simp [cmd_grow, hmax, hcur]
    have hsh : cmd_shrink st = shrink st := by simp [cmd_shrink, hmax, hcur]
    refine ⟨hg, hsh, ?_, ?_⟩
    · intro h
      rw [hg, grow_ratio_of_lt st h]
      linarith
    · intro h
      rw [hsh, shrink_ratio_of_pos st h]
      linarith
  · intro hmax hcur
    have hg : cmd_grow st = shrink st := by simp [cmd_grow, hmax, hcur]
    have hsh : cmd_shrink st = grow st := by simp [cmd_shrink, hmax, hcur]
    refine ⟨hg, hsh, ?_, ?_⟩
    · intro h
      rw [hg, shrink_ratio_of_pos st h]
      linarith
    · intro h
      rw [hsh, grow_ratio_of_lt st h]
      linarith

/-- Witness for C7: with the cursor on the maximized client `cmd_grow` is
`grow` and raises the ratio; with the cursor on a secondary pane `cmd_grow`
is `shrink` and lowers it; without a maximized client both are no-ops. -/
theorem cmd_grow_shrink_direction_witness :
    (cmd_grow exNormalState = exNormalState ∧
      cmd_shrink exNormalState = exNormalState) ∧
    (cmd_grow exCursorOnMax = grow exCursorOnMax ∧
      exCursorOnMax.ratio < (cmd_grow exCursorOnMax).ratio) ∧
    (cmd_grow exCursorOnSec = shrink exCursorOnSec ∧
      (cmd_grow exCursorOnSec).ratio < exCursorOnSec.ratio) := by
  refine ⟨?_, ?_, ?_⟩
  · exact (cmd_grow_shrink_direction exNormalState 0
      (by norm_num [exNormalState])).1 rfl
  · obtain ⟨h1, -, h3, -⟩ :=
      (cmd_grow_shrink_direction exCursorOnMax 10
        (by norm_num [exCursorOnMax])).2.1 rfl rfl
    exact ⟨h1, h3 (by norm_num [exCursorOnMax])⟩
  · obtain ⟨h1, -, h3, -⟩ :=
      (cmd_grow_shrink_direction exCursorOnSec 10
        (by norm_num [exCursorOnSec])).2.2 rfl (by decide)
    exact ⟨h1, h3 (by norm_num [exCursorOnSec])⟩

/-- C4: removing the maximized client leaves `maximized` unset, removing any
other client leaves `maximized` unchanged, and the membership invariant (a
set `maximized` refers to a client in the list) is preserved by removal. -/
theorem remove_clears_maximized (st : State) (w : Client) :
    (st.maximized = some w → (remove st w).maximized = none) ∧
    (st.maximized ≠ some w → (remove st w).maximized = st.maximized) ∧
    (∀ m, st.maximized = some m → m ∈ st.clients →
      ∀ m', (remove st w).maximized = some m' →
        m' ∈ (remove st w).clients) := by
  refine ⟨?_, ?_, ?_⟩
  · intro h
    simp [remove, h]
  · intro h
    simp [remove, h]
  · intro m hm hmem m' hm'
    by_cases hw : st.maximized = some w
    · simp [remove, hw] at hm'
    · have hmm : (remove st w).maximized = st.maximized := by
        simp [remove, hw]
      rw [hmm, hm] at hm'
      obtain rfl : m = m' := Option.some_inj.mp hm'
      have hmw : m ≠ w := by
        rintro rfl
        exact hw hm
      have hcl : (remove st w).clients = st.clients.erase w := by
        simp only [remove]
        split <;> rfl
      rw [hcl]
      exact (List.mem_erase_of_ne hmw).mpr hmem

/-- Witness for C4: removing client 10 (the maximized one) unsets
`maximized`; removing client 11 keeps it; the survivor stays a member. -/
theorem remove_clears_maximized_witness :
    (remove { clients := [10, 11], maximized := some 10 } 10).maximized
        = none ∧
    (remove { clients := [10, 11], maximized := some 10 } 11).maximized
        = some 10 ∧
    (10 : Client) ∈ (remove { clients := [10, 11], maximized := some 10 }
        11).clients := by
  refine ⟨?_, ?_, ?_⟩
  · exact (remove_clears_maximized
      { clients := [10, 11], maximized := some 10 } 10).1 rfl
  · exact (remove_clears_maximized
      { clients := [10, 11], maximized := some 10 } 11).2.1 (by decide)
  · exact (remove_clears_maximized
      { clients := [10, 11], maximized := some 10 } 11).2.2 10 rfl
      (by decide) 10
      ((remove_clears_maximized
        { clients := [10, 11], maximized := some 10 } 11).2.1 (by decide))

end VerticalTileSpec
